import Mathlib

/-!
Verification of the UCX point-to-point utilities
(`torch/csrc/distributed/c10d/ucc/UCXUtils.hpp`).

The header declares three classes — `UCPRequest`, `UCPWorker`, `UCPEndpoint` —
over the UCP transport library.  We embed:

* the UCS status-code conventions used by the header (`ucs_status_t` as a
  signed integer; `ucs_status_ptr_t` as a 64-bit pointer-sized word whose
  value encodes either a null pointer, a genuine request pointer, or an
  error status, exactly as the UCX `UCS_PTR_*` macros decode it);
* the inline member functions of the header (`UCPRequest::status`,
  `UCPRequest::info`, `UCPRequest::Data::reset`, the `TORCH_UCX_CHECK_PTR`
  macro);
* a transition system for the ownership and completion protocol (pool of
  completion records, live requests, endpoints, shared worker reference
  count), whose non-inline operations are modelled from the specification
  because only the header is in the source tree.
-/

/-! ## UCS status codes (from `ucs/type/status.h`, the transport library) -/

/-- `UCS_OK` : operation completed successfully. -/
def UCS_OK : Int := 0

/-- `UCS_INPROGRESS` : operation is in progress. -/
def UCS_INPROGRESS : Int := 1

/-- `UCS_ERR_NO_MESSAGE`, the first error code of `ucs_status_t`. -/
def UCS_ERR_NO_MESSAGE : Int := -1

/-- `UCS_ERR_LAST`, the sentinel past the last error code of `ucs_status_t`. -/
def UCS_ERR_LAST : Int := -100

/-- Width of a pointer (`ucs_status_ptr_t` is pointer-sized); 64-bit target. -/
def ptrMod : Nat := 2 ^ 64

/-- Reinterpret a 64-bit unsigned word as a signed integer
(two's complement), as the C cast `(ucs_status_t)(intptr_t)ptr` does. -/
def toSigned (p : Nat) : Int :=
  if p < 2 ^ 63 then (p : Int) else (p : Int) - 2 ^ 64

/-- `UCS_PTR_RAW_STATUS(ptr)` : the raw status obtained by casting the
pointer value to `ucs_status_t`. -/
def UCS_PTR_RAW_STATUS (p : Nat) : Int := toSigned p

/-- `(uintptr_t)UCS_ERR_LAST` : the error sentinel viewed as an unsigned
pointer-sized word. -/
def errLastU : Nat := 2 ^ 64 - 100

/-- `UCS_PTR_IS_ERR(ptr)` : `((uintptr_t)ptr) >= ((uintptr_t)UCS_ERR_LAST)`. -/
def UCS_PTR_IS_ERR (p : Nat) : Bool := errLastU ≤ p

/-- `UCS_PTR_IS_PTR(ptr)` : `((uintptr_t)ptr - 1) < ((uintptr_t)UCS_ERR_LAST - 1)`,
with the subtraction wrapping modulo `2^64` as unsigned C arithmetic does.
True exactly for genuine request pointers (non-null, not an error value). -/
def UCS_PTR_IS_PTR (p : Nat) : Bool :=
  (p + (ptrMod - 1)) % ptrMod < errLastU - 1

/-- `UCS_PTR_STATUS(ptr)` : `UCS_INPROGRESS` for a genuine pointer,
otherwise the raw status encoded in the pointer value. -/
def UCS_PTR_STATUS (p : Nat) : Int :=
  if UCS_PTR_IS_PTR p then UCS_INPROGRESS else UCS_PTR_RAW_STATUS p

/-! ## Errors surfaced by the header -/

/-- `c10::UCXError`, thrown by `TORCH_UCX_CHECK` / `TORCH_UCX_CHECK_PTR`;
it carries the native `ucs_status_t` that caused the failure
(appended via `ucs_status_string(st)`). -/
structure UCXError where
  status : Int
deriving DecidableEq, Repr

/-- Failure of `TORCH_INTERNAL_ASSERT` (a `c10` internal assertion). -/
inductive InternalAssert where
  | assertionFailed
deriving DecidableEq, Repr

/-- `TORCH_UCX_CHECK_PTR(ptr, ...)` from `UCXUtils.hpp` lines 18–23:
computes `st = UCS_PTR_STATUS(ptr)`, succeeds iff `st == UCS_INPROGRESS`,
and otherwise throws a `UCXError` carrying the native status `st`. -/
def TORCH_UCX_CHECK_PTR (p : Nat) : Except UCXError Unit :=
  let st := UCS_PTR_STATUS p
  if st = UCS_INPROGRESS then Except.ok () else Except.error ⟨st⟩

/-! ## `UCPRequest` (inline members, from the header) -/

/-- `ucp_tag_recv_info_t` : completion metadata of a tagged receive.
`{}` (value initialization) zeroes both fields. -/
structure TagRecvInfo where
  senderTag : Nat := 0
  length : Nat := 0
deriving DecidableEq, Repr

/-- `UCPRequest::Data` : the completion record living in UCP's worker
memory pool. -/
structure Data where
  status : Int
  info : TagRecvInfo
deriving DecidableEq, Repr

/-- `UCPRequest::Data::reset` : `status = UCS_INPROGRESS; info = {};`. -/
def Data.reset (_d : Data) : Data :=
  { status := UCS_INPROGRESS, info := {} }

/-- Modelled from the spec: `UCPRequest::request_init_callback` is only
declared in the header (its body is in the missing `UCXUtils.cpp`); the
spec describes the pool's initial state as the state `reset` establishes,
so the init callback resets the record. -/
def request_init_callback (d : Data) : Data := d.reset

/-- `UCPRequest` : `data` is the pointer to the underlying completion
record; `nullptr` (here `none`) represents a request that finished
immediately.  The shared worker reference is modelled separately in the
ownership system below. -/
structure UCPRequest where
  data : Option Data
deriving DecidableEq, Repr

/-- `UCPRequest::status` : `if (data == nullptr) return UCS_OK; return data->status;`. -/
def UCPRequest.status (r : UCPRequest) : Int :=
  match r.data with
  | none => UCS_OK
  | some d => d.status

/-- `UCPRequest::info` : `TORCH_INTERNAL_ASSERT(data != nullptr); return data->info;`.
The assertion failure is modelled as an `Except.error`. -/
def UCPRequest.info (r : UCPRequest) : Except InternalAssert TagRecvInfo :=
  match r.data with
  | none => Except.error InternalAssert.assertionFailed
  | some d => Except.ok d.info

/-! ## The submission dispatcher -/

/-- Modelled from the spec: `UCPWorker::submit_p2p_request` is only declared
in the header (its body is in the missing `UCXUtils.cpp`).  Per the spec it
invokes the caller-supplied operation, obtaining a raw
`ucs_status_ptr_t` outcome `p`, and classifies it: a null pointer means the
operation completed immediately and yields a `UCPRequest` with no backing
record; otherwise the outcome passes through `TORCH_UCX_CHECK_PTR` (from
the header), which admits exactly the in-progress case and throws a
`UCXError` with the native status on any other outcome; in the admitted
case the returned record pointer is wrapped in a `UCPRequest`.
`heap p` gives the record the pointer `p` points at. -/
def submit_p2p_request (heap : Nat → Data) (p : Nat) : Except UCXError UCPRequest :=
  if p = 0 then Except.ok ⟨none⟩
  else
    match TORCH_UCX_CHECK_PTR p with
    | Except.error e => Except.error e
    | Except.ok _ => Except.ok ⟨some (heap p)⟩

/-- Modelled from the spec: the tag-matching rule applied by the transport
to a receive posted via `UCPWorker::recv_with_tag_and_mask` — an incoming
message matches iff `(incoming_tag & mask) == (expected_tag & mask)`
(`ucp_tag_t` is a 64-bit unsigned integer). -/
def tagMatches (incoming expected mask : Nat) : Bool :=
  incoming &&& mask = expected &&& mask

/-! ## Ownership and completion protocol

The lifetime behaviour of the header is modelled as a transition system.
Requests and endpoints hold a `std::shared_ptr<const UCPWorker>`
(`UCPRequest::worker`, `UCPEndpoint::worker` in the header), and the
caller holds worker handles of the same kind; `~UCPWorker` runs exactly
when the shared reference count drops to zero.  Completion records are
identified by the pointer UCP hands out; UCP's pool is the list of free
records.  The bodies of `submit_p2p_request`, `UCPWorker::progress` /
`recv_callback` and `~UCPRequest` are modelled from the spec (only their
declarations are in the source tree):

* submission either creates a request with no record (immediate
  completion) or moves a record out of the pool into the new request;
* `progress` is the only operation that delivers completions: it may set
  the status of an in-progress record of a live request to a terminal
  status;
* `~UCPRequest` resets the record (`Data::reset`) and returns it to the
  pool (`ucp_request_free`), then drops the worker reference.
-/

/-- A completion-record identity (the pointer value UCP handed out). -/
abbrev RecId := Nat

/-- State of the ownership/completion transition system. -/
structure St where
  /-- Free completion records in UCP's worker memory pool. -/
  pool : List RecId
  /-- The contents (`status` and `info` fields) of each completion record. -/
  recData : RecId → Data
  /-- Live `UCPRequest` objects: request identity paired with the backing
  record (`none` for an immediate completion). -/
  live : List (Nat × Option RecId)
  /-- Number of live `UCPEndpoint` objects. -/
  endpoints : Nat
  /-- Worker handles held directly by the caller. -/
  workerHandles : Nat
  /-- Whether `~UCPWorker` has not yet run. -/
  workerAlive : Bool

/-- The shared reference count of the worker: caller handles plus one
reference per live endpoint and per live request. -/
def refCount (s : St) : Nat := s.workerHandles + s.endpoints + s.live.length

/-- Identities of the live requests. -/
def reqIds (s : St) : List Nat := s.live.map Prod.fst

/-- Records currently owned by live requests. -/
def liveRecs (s : St) : List RecId := s.live.filterMap Prod.snd

/-- Events of the protocol. -/
inductive Ev where
  /-- A submission that the transport completed synchronously: a request
  with no backing record is created. -/
  | submitImmediate (reqId : Nat)
  /-- A submission accepted in progress: UCP takes a record from its pool
  (running the init callback on first use), and the request wraps it. -/
  | submitPending (reqId : Nat)
  /-- A `UCPWorker::progress` call delivers the completion of record `r`
  with terminal status `st` and receive metadata `inf` (via `recv_callback`,
  which stores the status and the `ucp_tag_recv_info_t` into the record). -/
  | progress (r : RecId) (st : Int) (inf : TagRecvInfo)
  /-- `~UCPRequest` on the live request `(reqId, rec)`. -/
  | destroyRequest (reqId : Nat) (rec : Option RecId)
  /-- `UCPWorker::connect` creates an endpoint holding a worker reference. -/
  | connect
  /-- `~UCPEndpoint` drops one endpoint. -/
  | destroyEndpoint
  /-- The caller releases one of its worker handles. -/
  | releaseHandle
deriving DecidableEq, Repr

/-- Pointwise update of a record table. -/
def updData (f : RecId → Data) (k : RecId) (v : Data) : RecId → Data :=
  fun x => if x = k then v else f x

/-- Remove the first occurrence of `a` from `l` (explicit recursion, used
for request destruction). -/
def eraseFirst : List (Nat × Option RecId) → (Nat × Option RecId) → List (Nat × Option RecId)
  | [], _ => []
  | x :: xs, a => if x = a then xs else x :: eraseFirst xs a

/-- The status a live `UCPRequest` observes, mirroring `UCPRequest::status`:
`UCS_OK` with no backing record, the record's status otherwise. -/
def statusOf (s : St) (rec : Option RecId) : Int :=
  match rec with
  | none => UCS_OK
  | some r => (s.recData r).status

/-- `~UCPWorker` runs exactly when the shared reference count reaches zero. -/
def maybeTeardown (s : St) : St :=
  if refCount s = 0 then { s with workerAlive := false } else s

/-- One step of the protocol.  Guards make inapplicable events no-ops:
nothing happens through a dead worker, a request identity is never reused
while live, and destruction acts on live objects only. -/
def step (s : St) (e : Ev) : St :=
  if s.workerAlive = false then s else
  match e with
  | Ev.submitImmediate rid =>
      if rid ∈ reqIds s then s
      else { s with live := (rid, none) :: s.live }
  | Ev.submitPending rid =>
      match s.pool with
      | [] => s
      | r :: rest =>
          if rid ∈ reqIds s then s
          else { s with pool := rest,
                        live := (rid, some r) :: s.live }
  | Ev.progress r st inf =>
      if (s.recData r).status = UCS_INPROGRESS ∧ st ≠ UCS_INPROGRESS ∧
          r ∈ liveRecs s then
        { s with recData := updData s.recData r (Data.mk st inf) }
      else s
  | Ev.destroyRequest rid rec =>
      if (rid, rec) ∈ s.live then
        match rec with
        | some r =>
            maybeTeardown
              { s with live := eraseFirst s.live (rid, some r),
                       pool := r :: s.pool,
                       recData := updData s.recData r ((s.recData r).reset) }
        | none =>
            maybeTeardown { s with live := eraseFirst s.live (rid, none) }
      else s
  | Ev.connect =>
      { s with endpoints := s.endpoints + 1 }
  | Ev.destroyEndpoint =>
      if s.endpoints = 0 then s
      else maybeTeardown { s with endpoints := s.endpoints - 1 }
  | Ev.releaseHandle =>
      if s.workerHandles = 0 then s
      else maybeTeardown { s with workerHandles := s.workerHandles - 1 }

/-- Initial state: `n` records in the pool (each freshly initialized by
`request_init_callback`, hence in progress), no requests or endpoints,
one caller handle, worker alive. -/
def init (n : Nat) : St :=
  { pool := List.range n
  , recData := fun _ => request_init_callback ⟨UCS_OK, {}⟩
  , live := []
  , endpoints := 0
  , workerHandles := 1
  , workerAlive := true }

/-- Run a sequence of events. -/
def run (n : Nat) (es : List Ev) : St := es.foldl step (init n)

/-- The protocol invariant: no record is both free and owned (and none is
duplicated); request identities are unique; a dead worker has reference
count zero; a live worker is referenced; and every free record sits in its
reset state. -/
def SysInv (s : St) : Prop :=
  (s.pool ++ liveRecs s).Nodup ∧ (reqIds s).Nodup ∧
    (s.workerAlive = false → refCount s = 0) ∧
    (s.workerAlive = true → 1 ≤ refCount s) ∧
    (∀ r ∈ s.pool, s.recData r = (s.recData r).reset)

/-! ## Special member functions of `UCPRequest`

C++ availability of copy/move on `UCPRequest`, read off the class
definition: the copy constructor and copy assignment are explicitly
deleted (`UCPRequest(const UCPRequest&) = delete;`,
`UCPRequest& operator=(const UCPRequest &) = delete;`), and because the
class has a user-declared copy constructor, copy assignment and
destructor (`~UCPRequest();`), no move constructor or move assignment is
implicitly declared, so a move expression resolves to the deleted copy
operations: the type is neither copyable nor movable. -/

/-- Which special member functions a C++ class offers. -/
structure SpecialMembers where
  copyConstructible : Bool
  copyAssignable : Bool
  moveConstructible : Bool
  moveAssignable : Bool
deriving DecidableEq, Repr

/-- The special members of `UCPRequest` per the class definition
(see the section comment above). -/
def ucpRequestSpecialMembers : SpecialMembers :=
  { copyConstructible := false
  , copyAssignable := false
  , moveConstructible := false
  , moveAssignable := false }

/-! ## Invariant preservation -/

theorem maybeTeardown_pool (s : St) : (maybeTeardown s).pool = s.pool := by
  unfold maybeTeardown; split <;> rfl

theorem maybeTeardown_live (s : St) : (maybeTeardown s).live = s.live := by
  unfold maybeTeardown; split <;> rfl

theorem maybeTeardown_recData (s : St) : (maybeTeardown s).recData = s.recData := by
  unfold maybeTeardown; split <;> rfl

theorem maybeTeardown_endpoints (s : St) :
    (maybeTeardown s).endpoints = s.endpoints := by
  unfold maybeTeardown; split <;> rfl

theorem refCount_maybeTeardown (s : St) : refCount (maybeTeardown s) = refCount s := by
  unfold maybeTeardown; split <;> rfl

theorem sysInv_maybeTeardown (s : St)
    (h1 : (s.pool ++ liveRecs s).Nodup) (h2 : (reqIds s).Nodup)
    (h5 : ∀ r ∈ s.pool, s.recData r = (s.recData r).reset)
    (ha : s.workerAlive = true) :
    SysInv (maybeTeardown s) := by
  unfold maybeTeardown
  split
  case isTrue h =>
    exact ⟨h1, h2, fun _ => h, fun hcontra => by simp at hcontra, h5⟩
  case isFalse h =>
    exact ⟨h1, h2, fun hdead => by rw [ha] at hdead; simp at hdead,
      fun _ => Nat.one_le_iff_ne_zero.mpr h, h5⟩

theorem sysInv_init (n : Nat) : SysInv (init n) := by
  refine ⟨?_, ?_, ?_, ?_, ?_⟩
  · simp [init, liveRecs, List.nodup_range]
  · simp [init, reqIds]
  · intro h; simp [init] at h
  · intro _; simp [init, refCount]
  · intro r _; rfl

theorem perm_cons_eraseFirst {a : Nat × Option RecId} {l : List (Nat × Option RecId)}
    (h : a ∈ l) : List.Perm l (a :: eraseFirst l a) := by
  induction l with
  | nil => cases h
  | cons x xs ih =>
    by_cases hx : x = a
    · subst hx; simp [eraseFirst]
    · have hmem : a ∈ xs := by
        rcases List.mem_cons.mp h with hxa | hxa
        · exact absurd hxa.symm hx
        · exact hxa
      simp only [eraseFirst, if_neg hx]
      exact (List.Perm.cons x (ih hmem)).trans (List.Perm.swap a x _)

theorem eraseFirst_sublist (l : List (Nat × Option RecId)) (a : Nat × Option RecId) :
    List.Sublist (eraseFirst l a) l := by
  induction l with
  | nil => simp [eraseFirst]
  | cons x xs ih =>
    by_cases hx : x = a
    · simp only [eraseFirst, if_pos hx]
      exact List.sublist_cons_self x xs
    · simp only [eraseFirst, if_neg hx]
      exact List.Sublist.cons₂ x ih

theorem sysInv_step (s : St) (e : Ev) (h : SysInv s) : SysInv (step s e) := by
  obtain ⟨h1, h2, h3, h4, h5⟩ := h
  by_cases ha : s.workerAlive = true
  case neg =>
    have hdead : s.workerAlive = false := by
      cases hb : s.workerAlive
      · rfl
      · exact absurd hb ha
    simp only [step, hdead, if_pos rfl]
    exact ⟨h1, h2, h3, h4, h5⟩
  case pos =>
  have hne : ¬s.workerAlive = false := by simp [ha]
  cases e with
  | submitImmediate rid =>
      simp only [step, if_neg hne]
      split
      · exact ⟨h1, h2, h3, h4, h5⟩
      · rename_i hrid
        refine ⟨?_, ?_, ?_, ?_, h5⟩
        · simpa [liveRecs, List.filterMap_cons] using h1
        · exact List.nodup_cons.mpr ⟨hrid, h2⟩
        · intro hd; rw [ha] at hd; simp at hd
        · intro _
          have := h4 ha
          simp only [refCount, List.length_cons] at *
          omega
  | submitPending rid =>
      simp only [step, if_neg hne]
      split
      · exact ⟨h1, h2, h3, h4, h5⟩
      · rename_i r rest hp
        split
        · exact ⟨h1, h2, h3, h4, h5⟩
        · rename_i hrid
          rw [hp] at h1
          refine ⟨?_, ?_, ?_, ?_, ?_⟩
          · simp only [liveRecs, List.filterMap_cons]
            rw [List.nodup_middle]
            simpa [liveRecs] using h1
          · exact List.nodup_cons.mpr ⟨hrid, h2⟩
          · intro hd; rw [ha] at hd; simp at hd
          · intro _
            have := h4 ha
            simp only [refCount, List.length_cons] at *
            omega
          · intro q hq
            exact h5 q (by rw [hp]; exact List.mem_cons_of_mem _ hq)
  | progress r st inf =>
      simp only [step, if_neg hne]
      split
      · rename_i hg
        refine ⟨h1, h2, ?_, h4, ?_⟩
        · intro hd; rw [ha] at hd; simp at hd
        · intro q hq
          have hdisj := List.disjoint_of_nodup_append h1
          have hqr : q ≠ r := fun hqr => hdisj hq (hqr ▸ hg.2.2)
          simp only [updData, if_neg hqr]
          exact h5 q hq
      · exact ⟨h1, h2, h3, h4, h5⟩
  | destroyRequest rid rec =>
      simp only [step, if_neg hne]
      cases rec with
      | some r =>
        split
        · rename_i hmem
          apply sysInv_maybeTeardown
          · have hperm : List.Perm s.live ((rid, some r) :: eraseFirst s.live (rid, some r)) :=
              perm_cons_eraseFirst hmem
            have hfm := hperm.filterMap Prod.snd
            simp only [List.filterMap_cons] at hfm
            have hmid : List.Perm (s.pool ++ liveRecs s)
                (r :: (s.pool ++ (eraseFirst s.live (rid, some r)).filterMap Prod.snd)) :=
              (List.Perm.append_left s.pool hfm).trans List.perm_middle
            have hnd := hmid.nodup_iff.mp h1
            simpa [liveRecs, List.cons_append] using hnd
          · exact List.Nodup.sublist ((eraseFirst_sublist _ _).map _) h2
          · intro q hq
            rcases List.mem_cons.mp hq with hqr | hq
            · subst hqr; simp [updData, Data.reset]
            · by_cases hqr : q = r
              · subst hqr; simp [updData, Data.reset]
              · simp only [updData, if_neg hqr]
                exact h5 q hq
          · exact ha
        · exact ⟨h1, h2, h3, h4, h5⟩
      | none =>
        split
        · rename_i hmem
          apply sysInv_maybeTeardown
          · have hperm : List.Perm s.live ((rid, none) :: eraseFirst s.live (rid, none)) :=
              perm_cons_eraseFirst hmem
            have hfm := hperm.filterMap Prod.snd
            simp only [List.filterMap_cons] at hfm
            have hnd := (List.Perm.append_left s.pool hfm).nodup_iff.mp h1
            simpa [liveRecs] using hnd
          · exact List.Nodup.sublist ((eraseFirst_sublist _ _).map _) h2
          · exact h5
          · exact ha
        · exact ⟨h1, h2, h3, h4, h5⟩
  | connect =>
      simp only [step, if_neg hne]
      refine ⟨h1, h2, ?_, ?_, h5⟩
      · intro hd; rw [ha] at hd; simp at hd
      · intro _
        have := h4 ha
        simp only [refCount] at *
        omega
  | destroyEndpoint =>
      simp only [step, if_neg hne]
      split
      · exact ⟨h1, h2, h3, h4, h5⟩
      · exact sysInv_maybeTeardown _ h1 h2 h5 ha
  | releaseHandle =>
      simp only [step, if_neg hne]
      split
      · exact ⟨h1, h2, h3, h4, h5⟩
      · exact sysInv_maybeTeardown _ h1 h2 h5 ha

theorem sysInv_run (n : Nat) (es : List Ev) : SysInv (run n es) := by
  have h : ∀ (l : List Ev) (s : St), SysInv s → SysInv (l.foldl step s) := by
    intro l
    induction l with
    | nil => intro s hs; exact hs
    | cons e t ih => intro s hs; exact ih (step s e) (sysInv_step s e hs)
  exact h es (init n) (sysInv_init n)

/-! ## Claim theorems -/

/-- Claim C1: `submit_p2p_request` classifies the raw outcome of the
caller-supplied operation: on immediate completion (null outcome) it
returns a `Request` with no backing record; on in-progress (a genuine
pointer) it returns a `Request` wrapping the returned record pointer; on
any other outcome it fails with a transport error carrying the native
status (an error code), and in that case no `Request` is produced. -/
theorem submit_p2p_request_classifies (heap : Nat → Data) (p : Nat)
    (hp : p < 2 ^ 64) :
    (p = 0 → submit_p2p_request heap p = Except.ok ⟨none⟩) ∧
    (UCS_PTR_IS_PTR p = true →
      submit_p2p_request heap p = Except.ok ⟨some (heap p)⟩) ∧
    (p ≠ 0 → UCS_PTR_IS_PTR p = false →
      submit_p2p_request heap p = Except.error ⟨UCS_PTR_RAW_STATUS p⟩ ∧
      UCS_PTR_IS_ERR p = true) := by
  refine ⟨?_, ?_, ?_⟩
  · intro h; subst h; simp [submit_p2p_request]
  · intro hptr
    have hne0 : p ≠ 0 := by
      intro h; subst h; revert hptr; decide
    have hchk : TORCH_UCX_CHECK_PTR p = Except.ok () := by
      simp [TORCH_UCX_CHECK_PTR, UCS_PTR_STATUS, hptr]
    unfold submit_p2p_request
    rw [if_neg hne0, hchk]
  · intro hne0 hnptr
    have hraw : UCS_PTR_RAW_STATUS p ≠ UCS_INPROGRESS := by
      intro hcontra
      have hp1 : p = 1 := by
        unfold UCS_PTR_RAW_STATUS toSigned at hcontra
        unfold UCS_INPROGRESS at hcontra
        split at hcontra
        · exact_mod_cast hcontra
        · omega
      subst hp1
      rw [show UCS_PTR_IS_PTR 1 = true from by decide] at hnptr
      simp at hnptr
    have hchk : TORCH_UCX_CHECK_PTR p = Except.error ⟨UCS_PTR_RAW_STATUS p⟩ := by
      simp [TORCH_UCX_CHECK_PTR, UCS_PTR_STATUS, hnptr, hraw]
    constructor
    · unfold submit_p2p_request
      rw [if_neg hne0, hchk]
    · simp only [UCS_PTR_IS_PTR, ptrMod, errLastU, decide_eq_false_iff_not,
        Nat.not_lt] at hnptr
      simp only [UCS_PTR_IS_ERR, errLastU, decide_eq_true_eq]
      omega

/-- Witness for C1 at a concrete error outcome: the status-pointer value
encoding `UCS_ERR_NO_MESSAGE` is rejected with that native status. -/
theorem submit_p2p_request_classifies_witness :
    submit_p2p_request (fun _ => ⟨UCS_OK, {}⟩) (2 ^ 64 - 1) =
      Except.error ⟨UCS_ERR_NO_MESSAGE⟩ ∧
    UCS_PTR_IS_ERR (2 ^ 64 - 1) = true := by
  have h := (submit_p2p_request_classifies (fun _ => ⟨UCS_OK, {}⟩) (2 ^ 64 - 1)
    (by norm_num)).2.2 (by norm_num) (by decide)
  refine ⟨?_, h.2⟩
  rw [h.1]
  have hr : UCS_PTR_RAW_STATUS (2 ^ 64 - 1) = UCS_ERR_NO_MESSAGE := by decide
  rw [hr]

/-- Claim C6: for every `Request` with no backing completion record (an
operation completed synchronously at submission), `status()` returns
`UCS_OK` immediately; in the protocol model the observed status of a
record-less request is `UCS_OK` in every reachable state, so no
`progress()` call is needed. -/
theorem status_ok_with_no_record :
    (∀ r : UCPRequest, r.data = none → r.status = UCS_OK) ∧
    (∀ (n : Nat) (es : List Ev), statusOf (run n es) none = UCS_OK) := by
  constructor
  · intro r h
    unfold UCPRequest.status
    rw [h]
  · intro n es; rfl

/-- Witness for C6: a concrete record-less request reports `UCS_OK`. -/
theorem status_ok_with_no_record_witness :
    (UCPRequest.mk none).status = UCS_OK :=
  status_ok_with_no_record.1 ⟨none⟩ rfl

/-- Claim C2 counterexample: a `Request` whose backing record is still in
progress has `status()` equal to `UCS_INPROGRESS`, yet `info()` does not
fail — it returns the (zero-initialized) metadata, because the source only
asserts `data != nullptr` and never checks the status. -/
theorem info_in_progress_counterexample :
    (UCPRequest.mk (some ⟨UCS_INPROGRESS, {}⟩)).status = UCS_INPROGRESS ∧
    (UCPRequest.mk (some ⟨UCS_INPROGRESS, {}⟩)).info = Except.ok {} :=
  ⟨rfl, rfl⟩

/-- Claim C2 (amended): `info()` fails (with the internal assertion) if and
only if the `Request` has no backing record; whenever a record exists,
`info()` returns the record's current metadata regardless of `status()`,
so the caller must consult `status()` before trusting the metadata. -/
theorem info_asserts_iff_no_record (r : UCPRequest) :
    (r.info = Except.error InternalAssert.assertionFailed ↔ r.data = none) ∧
    (∀ d, r.data = some d → r.info = Except.ok d.info) := by
  obtain ⟨data⟩ := r
  cases data with
  | none =>
    refine ⟨by simp [UCPRequest.info], ?_⟩
    intro d h
    simp at h
  | some d =>
    refine ⟨by simp [UCPRequest.info], ?_⟩
    intro d2 h
    simp only [UCPRequest.info]
    simp at h
    rw [h]

/-- Witness for the amended C2: `info()` on a record-less request fails the
assertion. -/
theorem info_asserts_iff_no_record_witness :
    (UCPRequest.mk none).info = Except.error InternalAssert.assertionFailed :=
  (info_asserts_iff_no_record ⟨none⟩).1.mpr rfl

/-- Claim C7 counterexample: for a `Request` created from a synchronously
completed operation (no backing record), `status()` is `UCS_OK` but
`info()` is not readable — it fails the internal assertion
`data != nullptr` instead of returning metadata. -/
theorem info_immediate_counterexample :
    (UCPRequest.mk none).status = UCS_OK ∧
    (UCPRequest.mk none).info = Except.error InternalAssert.assertionFailed :=
  ⟨rfl, rfl⟩

/-- Claim C7 (amended): for every `Request` with no backing record,
`status()` is `UCS_OK` immediately, but `info()` fails with the internal
assertion: completion metadata is only available when a backing record
exists. -/
theorem immediate_request_info_fails (r : UCPRequest) (h : r.data = none) :
    r.status = UCS_OK ∧
    r.info = Except.error InternalAssert.assertionFailed := by
  unfold UCPRequest.status UCPRequest.info
  rw [h]
  exact ⟨rfl, rfl⟩

/-- Witness for the amended C7 at the concrete record-less request. -/
theorem immediate_request_info_fails_witness :
    (UCPRequest.mk none).status = UCS_OK ∧
    (UCPRequest.mk none).info = Except.error InternalAssert.assertionFailed :=
  immediate_request_info_fails ⟨none⟩ rfl

/-- Claim C8: a receive posted via `recv_with_tag_and_mask` matches an
incoming message iff `(incoming_tag & mask) == (expected_tag & mask)`:
with the all-ones mask it matches exactly the equal tag, with the zero
mask it matches any tag, and generally it matches iff every bit selected
by the mask agrees between the two tags. -/
theorem recv_tag_mask_matching (incoming expected : Nat)
    (h1 : incoming < 2 ^ 64) (h2 : expected < 2 ^ 64) :
    (tagMatches incoming expected (2 ^ 64 - 1) = true ↔ incoming = expected) ∧
    tagMatches incoming expected 0 = true ∧
    (∀ mask, tagMatches incoming expected mask = true ↔
      ∀ i, mask.testBit i = true →
        incoming.testBit i = expected.testBit i) := by
  refine ⟨?_, ?_, ?_⟩
  · unfold tagMatches
    rw [Nat.and_pow_two_sub_one_of_lt_two_pow h1,
        Nat.and_pow_two_sub_one_of_lt_two_pow h2]
    simp
  · simp [tagMatches]
  · intro mask
    unfold tagMatches
    simp only [decide_eq_true_eq]
    constructor
    · intro hm i hbit
      have hbits := congrArg (fun x => Nat.testBit x i) hm
      simpa [Nat.testBit_and, hbit] using hbits
    · intro hbits
      apply Nat.eq_of_testBit_eq
      intro i
      simp only [Nat.testBit_and]
      cases hb : mask.testBit i with
      | false => simp
      | true => simp [hbits i hb]

/-- Witness for C8 at concrete tags: the zero mask matches the distinct
tags `18` and `31`, while the all-ones mask refuses them. -/
theorem recv_tag_mask_matching_witness :
    tagMatches 18 31 0 = true ∧
    ¬(tagMatches 18 31 (2 ^ 64 - 1) = true) := by
  have h := recv_tag_mask_matching 18 31 (by norm_num) (by norm_num)
  exact ⟨h.2.1, fun hc => absurd (h.1.mp hc) (by norm_num)⟩

/-- Claim C10: `UCPRequest::Data::reset` (the pool's initial state used by
`request_init_callback`) sets the status to `UCS_INPROGRESS` and
zero-initializes the info, so a freshly initialized or reset record
reports `UCS_INPROGRESS`; in the protocol model every free pool record of
every reachable state observes status `UCS_INPROGRESS`. -/
theorem reset_initializes_in_progress :
    (∀ d : Data, (d.reset).status = UCS_INPROGRESS ∧
      (d.reset).info = { senderTag := 0, length := 0 } ∧
      request_init_callback d = d.reset ∧
      (UCPRequest.mk (some (request_init_callback d))).status = UCS_INPROGRESS) ∧
    (∀ (n : Nat) (es : List Ev) (r : RecId), r ∈ (run n es).pool →
      statusOf (run n es) (some r) = UCS_INPROGRESS) := by
  constructor
  · intro d
    exact ⟨rfl, rfl, rfl, rfl⟩
  · intro n es r hr
    obtain ⟨h1, h2, h3, h4, h5⟩ := sysInv_run n es
    have hres := h5 r hr
    show ((run n es).recData r).status = UCS_INPROGRESS
    rw [hres]
    rfl

/-- Witness for C10: in the freshly created system the first pool record
reports `UCS_INPROGRESS`. -/
theorem reset_initializes_in_progress_witness :
    statusOf (run 1 []) (some 0) = UCS_INPROGRESS :=
  reset_initializes_in_progress.2 1 [] 0 (by decide)

/-! ## Further list helpers for the protocol theorems -/

theorem mem_eraseFirst_of_ne {l : List (Nat × Option RecId)}
    {a b : Nat × Option RecId} (h : b ∈ l) (hne : b ≠ a) :
    b ∈ eraseFirst l a := by
  induction l with
  | nil => cases h
  | cons x xs ih =>
    by_cases hx : x = a
    · subst hx
      simp only [eraseFirst, if_pos rfl]
      rcases List.mem_cons.mp h with hb | hb
      · exact absurd hb hne
      · exact hb
    · simp only [eraseFirst, if_neg hx]
      rcases List.mem_cons.mp h with hb | hb
      · exact hb ▸ List.mem_cons_self _ _
      · exact List.mem_cons_of_mem _ (ih hb)

theorem not_mem_eraseFirst_self {l : List (Nat × Option RecId)}
    (hnd : l.Nodup) (a : Nat × Option RecId) : a ∉ eraseFirst l a := by
  induction l with
  | nil => simp [eraseFirst]
  | cons x xs ih =>
    rcases List.nodup_cons.mp hnd with ⟨hx, hxs⟩
    by_cases hxa : x = a
    · subst hxa
      simp only [eraseFirst, if_pos rfl]
      exact hx
    · simp only [eraseFirst, if_neg hxa]
      intro hc
      rcases List.mem_cons.mp hc with hb | hb
      · exact hxa hb.symm
      · exact ih hxs hb

theorem snd_unique {l : List (Nat × Option RecId)}
    (h : (l.filterMap Prod.snd).Nodup) {x x2 : Nat} {v : RecId}
    (hx : (x, some v) ∈ l) (hx2 : (x2, some v) ∈ l) : x = x2 := by
  by_contra hne
  have hperm := perm_cons_eraseFirst hx
  have hx2e : (x2, some v) ∈ eraseFirst l (x, some v) :=
    mem_eraseFirst_of_ne hx2 (fun hc => hne (congrArg Prod.fst hc).symm)
  have hnodup2 := (hperm.filterMap Prod.snd).nodup_iff.mp h
  simp only [List.filterMap_cons] at hnodup2
  rcases List.nodup_cons.mp hnodup2 with ⟨hvnot, _⟩
  exact hvnot (List.mem_filterMap.mpr ⟨(x2, some v), hx2e, rfl⟩)

theorem step_destroy_some (s : St) (rid : Nat) (r : RecId)
    (ha : s.workerAlive = true) (hmem : (rid, some r) ∈ s.live) :
    step s (Ev.destroyRequest rid (some r)) =
      maybeTeardown { s with live := eraseFirst s.live (rid, some r),
                             pool := r :: s.pool,
                             recData := updData s.recData r ((s.recData r).reset) } := by
  simp only [step]
  rw [if_neg (by simp [ha]), if_pos hmem]

theorem step_destroy_none (s : St) (rid : Nat)
    (ha : s.workerAlive = true) (hmem : (rid, none) ∈ s.live) :
    step s (Ev.destroyRequest rid none) =
      maybeTeardown { s with live := eraseFirst s.live (rid, none) } := by
  simp only [step]
  rw [if_neg (by simp [ha]), if_pos hmem]

/-- Case analysis of how a step can touch the record table: either it
leaves every record unchanged, or it is a progress delivery on an
in-progress record, or it is the destruction of a live record-backed
request (which erases the request and resets the record). -/
theorem step_recData_cases (s : St) (e : Ev) :
    (step s e).recData = s.recData ∨
    (∃ r2 st2 inf2, e = Ev.progress r2 st2 inf2 ∧
      (s.recData r2).status = UCS_INPROGRESS ∧
      (step s e).recData = updData s.recData r2 ⟨st2, inf2⟩) ∨
    (∃ rid2 r2, e = Ev.destroyRequest rid2 (some r2) ∧
      (rid2, some r2) ∈ s.live ∧
      (step s e).live = eraseFirst s.live (rid2, some r2) ∧
      (step s e).recData = updData s.recData r2 ((s.recData r2).reset)) := by
  by_cases ha : s.workerAlive = false
  · left; simp only [step, if_pos ha]
  · cases e with
    | submitImmediate rid2 =>
        left
        simp only [step, if_neg ha]
        split <;> rfl
    | submitPending rid2 =>
        left
        simp only [step, if_neg ha]
        split
        · rfl
        · split <;> rfl
    | progress r2 st2 inf2 =>
        simp only [step, if_neg ha]
        split
        · rename_i hg
          right; left
          exact ⟨r2, st2, inf2, rfl, hg.1, rfl⟩
        · left; rfl
    | destroyRequest rid2 rec2 =>
        simp only [step, if_neg ha]
        cases rec2 with
        | some r2 =>
          split
          · rename_i hmem
            right; right
            exact ⟨rid2, r2, rfl, hmem, maybeTeardown_live _, maybeTeardown_recData _⟩
          · left; rfl
        | none =>
          split
          · left; exact maybeTeardown_recData _
          · left; rfl
    | connect =>
        left; simp only [step, if_neg ha]
    | destroyEndpoint =>
        left
        simp only [step, if_neg ha]
        split
        · rfl
        · exact maybeTeardown_recData _
    | releaseHandle =>
        left
        simp only [step, if_neg ha]
        split
        · rfl
        · exact maybeTeardown_recData _

/-- Claim C4: for every Endpoint and Request created from a Worker, the
Worker is never torn down while that Endpoint or Request is alive: each
holds one shared reference, and the destructor runs exactly when the
shared reference count reaches zero, so a dead worker has no referents. -/
theorem worker_alive_while_referenced (n : Nat) (es : List Ev) :
    ((run n es).live ≠ [] ∨ (run n es).endpoints ≠ 0 →
      (run n es).workerAlive = true) ∧
    ((run n es).workerAlive = false → refCount (run n es) = 0) ∧
    ((run n es).workerAlive = true → 1 ≤ refCount (run n es)) := by
  obtain ⟨h1, h2, h3, h4, h5⟩ := sysInv_run n es
  refine ⟨?_, h3, h4⟩
  intro href
  cases hb : (run n es).workerAlive with
  | true => rfl
  | false =>
    have hz := h3 hb
    unfold refCount at hz
    rcases href with hl | he
    · have hlen : (run n es).live.length = 0 := by omega
      exact absurd (List.length_eq_zero.mp hlen) hl
    · omega

/-- Witness for C4: with one live endpoint the worker is alive. -/
theorem worker_alive_while_referenced_witness :
    (run 1 [Ev.connect]).workerAlive = true :=
  (worker_alive_while_referenced 1 [Ev.connect]).1 (Or.inr (by decide))

/-- Claim C3: destroying a Request that holds a backing record resets the
record's fields to the pool's initial values and returns it to the pool
exactly once — the record is not in the pool before the destruction and
occurs exactly once in it afterwards (never zero times, never twice) —
and the worker reference is dropped; destroying a record-less Request
leaves the pool and every record untouched and only drops the worker
reference. -/
theorem destroy_releases_record_exactly_once (n : Nat) (es : List Ev)
    (rid : Nat) (r : RecId) :
    ((rid, some r) ∈ (run n es).live →
      (run n es).pool.count r = 0 ∧
      (step (run n es) (Ev.destroyRequest rid (some r))).pool.count r = 1 ∧
      (step (run n es) (Ev.destroyRequest rid (some r))).recData r =
        ((run n es).recData r).reset ∧
      refCount (step (run n es) (Ev.destroyRequest rid (some r))) + 1 =
        refCount (run n es)) ∧
    ((rid, none) ∈ (run n es).live →
      (step (run n es) (Ev.destroyRequest rid none)).pool = (run n es).pool ∧
      (step (run n es) (Ev.destroyRequest rid none)).recData = (run n es).recData ∧
      refCount (step (run n es) (Ev.destroyRequest rid none)) + 1 =
        refCount (run n es)) := by
  obtain ⟨h1, h2, h3, h4, h5⟩ := sysInv_run n es
  have halive : ∀ (rid2 : Nat) (rec2 : Option RecId),
      (rid2, rec2) ∈ (run n es).live → (run n es).workerAlive = true := by
    intro rid2 rec2 hmem2
    cases hb : (run n es).workerAlive with
    | true => rfl
    | false =>
      have hz := h3 hb
      unfold refCount at hz
      have hlen : (run n es).live.length = 0 := by omega
      rw [List.length_eq_zero.mp hlen] at hmem2
      cases hmem2
  constructor
  · intro hmem
    have ha := halive _ _ hmem
    have hrl : r ∈ liveRecs (run n es) :=
      List.mem_filterMap.mpr ⟨(rid, some r), hmem, rfl⟩
    have hrp : r ∉ (run n es).pool :=
      fun hc => (List.disjoint_of_nodup_append h1) hc hrl
    rw [step_destroy_some _ _ _ ha hmem]
    refine ⟨List.count_eq_zero_of_not_mem hrp, ?_, ?_, ?_⟩
    · rw [maybeTeardown_pool]
      show (r :: (run n es).pool).count r = 1
      rw [List.count_cons_self, List.count_eq_zero_of_not_mem hrp]
    · rw [maybeTeardown_recData]
      show updData (run n es).recData r (((run n es).recData r).reset) r = _
      simp [updData]
    · rw [refCount_maybeTeardown]
      have hlen := (perm_cons_eraseFirst hmem).length_eq
      simp only [List.length_cons] at hlen
      show (run n es).workerHandles + (run n es).endpoints +
          (eraseFirst (run n es).live (rid, some r)).length + 1 =
        (run n es).workerHandles + (run n es).endpoints + (run n es).live.length
      omega
  · intro hmem
    have ha := halive _ _ hmem
    rw [step_destroy_none _ _ ha hmem]
    refine ⟨maybeTeardown_pool _, maybeTeardown_recData _, ?_⟩
    rw [refCount_maybeTeardown]
    have hlen := (perm_cons_eraseFirst hmem).length_eq
    simp only [List.length_cons] at hlen
    show (run n es).workerHandles + (run n es).endpoints +
        (eraseFirst (run n es).live (rid, none)).length + 1 =
      (run n es).workerHandles + (run n es).endpoints + (run n es).live.length
    omega

/-- Witness for C3 at a concrete trace: one pending request holding
record 0; destroying it returns record 0 to the pool exactly once. -/
theorem destroy_releases_record_exactly_once_witness :
    (run 1 [Ev.submitPending 7]).pool.count 0 = 0 ∧
    (step (run 1 [Ev.submitPending 7])
      (Ev.destroyRequest 7 (some 0))).pool.count 0 = 1 :=
  have h := (destroy_releases_record_exactly_once 1 [Ev.submitPending 7]
    7 0).1 (by decide)
  ⟨h.1, h.2.1⟩

/-- Claim C5: for every pending Request the only transition out of Pending
is driven externally by a Worker progress call: any step that is not a
progress event on the request's record leaves the observed status
unchanged (so `status()` keeps returning `UCS_INPROGRESS` until progress
drains the completion), and once the status is terminal (not
`UCS_INPROGRESS`) no step that keeps the request alive ever changes it
again — it never reverts to `UCS_INPROGRESS`. -/
theorem pending_status_stable (n : Nat) (es : List Ev) (rid : Nat)
    (r : RecId) (e : Ev)
    (hmem : (rid, some r) ∈ (run n es).live)
    (hmem2 : (rid, some r) ∈ (step (run n es) e).live) :
    (statusOf (run n es) (some r) ≠ UCS_INPROGRESS →
      statusOf (step (run n es) e) (some r) = statusOf (run n es) (some r)) ∧
    ((∀ st inf, e ≠ Ev.progress r st inf) →
      statusOf (step (run n es) e) (some r) = statusOf (run n es) (some r)) := by
  obtain ⟨h1, h2, h3, h4, h5⟩ := sysInv_run n es
  rcases step_recData_cases (run n es) e with hsame |
    ⟨r2, st2, inf2, he, hst2, hupd⟩ | ⟨rid2, r2, he, hmem3, hlive, hupd⟩
  · constructor <;> intro _ <;>
      · show ((step (run n es) e).recData r).status =
          ((run n es).recData r).status
        rw [hsame]
  · have key : r2 ≠ r → statusOf (step (run n es) e) (some r) =
        statusOf (run n es) (some r) := by
      intro hne
      show ((step (run n es) e).recData r).status =
        ((run n es).recData r).status
      rw [hupd]
      unfold updData
      rw [if_neg (fun hc => hne hc.symm)]
    constructor
    · intro hterm
      have hterm2 : ((run n es).recData r).status ≠ UCS_INPROGRESS := hterm
      by_cases hr : r2 = r
      · subst hr
        exact absurd hst2 hterm2
      · exact key hr
    · intro hnp
      have hr : r2 ≠ r := fun hc => hnp st2 inf2 (by rw [he, hc])
      exact key hr
  · have hndl : (run n es).live.Nodup := List.Nodup.of_map _ h2
    have hr2 : r2 ≠ r := by
      intro hc
      subst hc
      by_cases hq : rid2 = rid
      · subst hq
        rw [hlive] at hmem2
        exact not_mem_eraseFirst_self hndl _ hmem2
      · exact hq (snd_unique ((List.nodup_append.mp h1).2.1) hmem3 hmem)
    have key : statusOf (step (run n es) e) (some r) =
        statusOf (run n es) (some r) := by
      show ((step (run n es) e).recData r).status =
        ((run n es).recData r).status
      rw [hupd]
      unfold updData
      rw [if_neg (fun hc => hr2 hc.symm)]
    exact ⟨fun _ => key, fun _ => key⟩

/-- Witness for C5 at a concrete trace: a connect step leaves the pending
request's observed status unchanged. -/
theorem pending_status_stable_witness :
    statusOf (step (run 1 [Ev.submitPending 7]) Ev.connect) (some 0) =
      statusOf (run 1 [Ev.submitPending 7]) (some 0) :=
  (pending_status_stable 1 [Ev.submitPending 7] 7 0 Ev.connect (by decide)
    (by decide)).2 (fun _ _ h => Ev.noConfusion h)

/-- Claim C9 counterexample: the claim asserts a Request is transferable
by move; but `UCPRequest` has user-declared (deleted) copy operations and
a user-declared destructor, so C++ implicitly declares no move operations
and a move expression resolves to the deleted copy constructor — the type
is not movable. -/
theorem request_not_movable :
    ucpRequestSpecialMembers.moveConstructible = false ∧
    ucpRequestSpecialMembers.moveAssignable = false :=
  ⟨rfl, rfl⟩

/-- Claim C9 (amended): a `UCPRequest` is neither copyable nor movable (the
object the factory creates is never duplicated or transferred), and in
every reachable protocol state each completion record is owned by at most
one live request — a single logical owner. -/
theorem request_single_owner (n : Nat) (es : List Ev) :
    ucpRequestSpecialMembers.copyConstructible = false ∧
    ucpRequestSpecialMembers.copyAssignable = false ∧
    ucpRequestSpecialMembers.moveConstructible = false ∧
    (liveRecs (run n es)).Nodup ∧
    (∀ rid rid2 r, (rid, some r) ∈ (run n es).live →
      (rid2, some r) ∈ (run n es).live → rid = rid2) := by
  obtain ⟨h1, h2, h3, h4, h5⟩ := sysInv_run n es
  refine ⟨rfl, rfl, rfl, (List.nodup_append.mp h1).2.1, ?_⟩
  intro rid rid2 r hmemA hmemB
  exact snd_unique ((List.nodup_append.mp h1).2.1) hmemA hmemB

/-- Witness for the amended C9: in a concrete state with one pending
request the record-ownership list is duplicate-free, and the uniqueness
consequence holds at the live request. -/
theorem request_single_owner_witness :
    (7, some 0) ∈ (run 1 [Ev.submitPending 7]).live ∧ (7 : Nat) = 7 :=
  ⟨by decide, (request_single_owner 1 [Ev.submitPending 7]).2.2.2.2 7 7 0
    (by decide) (by decide)⟩
